import Mathlib

/-!
Verification of the SleekXMPP XEP-0065 bytestream proxy module
(sleekxmpp/plugins/xep_0065/proxy.py).

The development shallowly embeds the parts of the module the claims are
about:

* the circuit-key (SOCKS5 destination hostname) derivation performed in
  Proxy.run via hashlib.sha1 — SHA-1 is implemented here in full so that
  concrete digests can be evaluated by the kernel;
* the length-framed reader Proxy.recv_size, as a state machine driven by
  an explicit model of socket reads (a list of delivered chunks plus how
  the stream ends), run by a fuel-indexed loop;
* the thread body Proxy.run as an event trace (connect, the connected
  Event being set, frame deliveries);
* the plugin-level send routing of xep_0065.send;
* proxy discovery (xep_0065.discover_proxy) and the start of
  xep_0065.handshake.

Python 2 byte strings are modelled as List Nat (one Nat per byte).
-/

set_option maxRecDepth 10000

/-- Bytes of an ASCII string: for the pure-ASCII inputs used here, the
codepoint of each character is exactly its byte in the Python 2 str. -/
def asciiBytes (s : String) : List Nat := s.data.map Char.toNat

/-- Big-endian 32-bit word from the first four bytes of a list
(struct.unpack of four bytes, before any sign adjustment). -/
def be32 (l : List Nat) : Nat := (l.take 4).foldl (fun a x => a * 256 + x) 0

/-- struct.unpack of a signed big-endian 32-bit integer, exactly as the
format code used by recv_size does: values with the top bit set are
negative. -/
def unpackI32 (l : List Nat) : Int :=
  let u := be32 l
  if u < 2147483648 then (u : Int) else (u : Int) - 4294967296

/-- The four big-endian bytes of a 32-bit length, as struct.pack would
produce them for the frame length field. -/
def lenBE4 (n : Nat) : List Nat :=
  [n / 16777216 % 256, n / 65536 % 256, n / 256 % 256, n % 256]

/-- Wire encoding of one frame: four length bytes followed by the payload. -/
def frameEncode (p : List Nat) : List Nat := lenBE4 p.length ++ p

/-- Rotate a 32-bit word left by n bits. -/
def rotl32 (n x : Nat) : Nat := ((x <<< n) % 4294967296) ||| (x >>> (32 - n))

/-- Big-endian bytes of a 64-bit value (the SHA-1 message bit length). -/
def be64 (n : Nat) : List Nat :=
  [n >>> 56 % 256, n >>> 48 % 256, n >>> 40 % 256, n >>> 32 % 256,
   n >>> 24 % 256, n >>> 16 % 256, n >>> 8 % 256, n % 256]

/-- SHA-1 padding: a 0x80 byte, zeros to 56 mod 64, then the bit length. -/
def sha1pad (msg : List Nat) : List Nat :=
  msg ++ 128 :: List.replicate ((119 - msg.length % 64) % 64) 0 ++ be64 (msg.length * 8)

/-- Extend the reversed schedule list n times; the head of the list is the
most recent word, so the words 3, 8, 14 and 16 back sit at reversed
indices 2, 7, 13 and 15. -/
def sha1extend : Nat → List Nat → List Nat
  | 0, wrev => wrev
  | n + 1, wrev =>
    sha1extend n
      (rotl32 1 ((wrev.getD 2 0) ^^^ (wrev.getD 7 0) ^^^ (wrev.getD 13 0) ^^^ (wrev.getD 15 0))
        :: wrev)

/-- One SHA-1 round: the round constant and boolean function depend on the
round index i. -/
def sha1round (i wi : Nat) (st : Nat × Nat × Nat × Nat × Nat) : Nat × Nat × Nat × Nat × Nat :=
  let (a, b, c, d, e) := st
  let f :=
    if i < 20 then (b &&& c) ||| ((b ^^^ 4294967295) &&& d)
    else if i < 40 then b ^^^ c ^^^ d
    else if i < 60 then (b &&& c) ||| (b &&& d) ||| (c &&& d)
    else b ^^^ c ^^^ d
  let k :=
    if i < 20 then 1518500249
    else if i < 40 then 1859775393
    else if i < 60 then 2400959708
    else 3395469782
  ((rotl32 5 a + f + e + k + wi) % 4294967296, a, rotl32 30 b, c, d)

/-- Compress one 64-byte block into the running SHA-1 state. -/
def sha1compress (h : Nat × Nat × Nat × Nat × Nat) (block : List Nat) :
    Nat × Nat × Nat × Nat × Nat :=
  let w0 := (List.range 16).map (fun i => be32 (block.drop (4 * i)))
  let w := (sha1extend 64 w0.reverse).reverse
  let (a, b, c, d, e) := w.enum.foldl (fun st p => sha1round p.1 p.2 st) h
  let (h0, h1, h2, h3, h4) := h
  ((h0 + a) % 4294967296, (h1 + b) % 4294967296, (h2 + c) % 4294967296,
   (h3 + d) % 4294967296, (h4 + e) % 4294967296)

/-- Split a byte list into successive 64-byte blocks (fuel-driven so the
kernel can evaluate it; any fuel past the length is enough). -/
def chunks64 : Nat → List Nat → List (List Nat)
  | 0, _ => []
  | n + 1, l => if l.isEmpty then [] else l.take 64 :: chunks64 n (l.drop 64)

/-- The 20 SHA-1 digest bytes of a byte-string message. -/
def sha1 (msg : List Nat) : List Nat :=
  let padded := sha1pad msg
  let (h0, h1, h2, h3, h4) :=
    (chunks64 (padded.length + 1) padded).foldl sha1compress
      (1732584193, 4023233417, 2562383102, 271733878, 3285377520)
  [h0, h1, h2, h3, h4].foldr
    (fun w acc => (w >>> 24 % 256) :: (w >>> 16 % 256) :: (w >>> 8 % 256) :: (w % 256) :: acc) []

/-- One lowercase hex digit. -/
def hexChar (n : Nat) : Char := if n < 10 then Char.ofNat (48 + n) else Char.ofNat (87 + n)

/-- hexdigest of hashlib: the digest bytes, two lowercase hex digits each. -/
def sha1hex (msg : List Nat) : String :=
  ⟨(sha1 msg).foldr (fun b acc => hexChar (b / 16) :: hexChar (b % 16) :: acc) []⟩

/-- Arguments a Proxy thread is constructed with (sid, requester JID,
target JID, proxy host, proxy port), as in Proxy.__init__. -/
structure ProxyArgs where
  sid : List Nat
  requester : List Nat
  target : List Nat
  host : List Nat
  port : Nat
deriving DecidableEq

/-- The destination hostname Proxy.run passes to the SOCKS5 connect call:
digest.update(sid); digest.update(requester); digest.update(target);
dest = digest.hexdigest().  Incremental sha1 updates hash the
concatenation of the fed byte strings, in order. -/
def proxyRunDest (a : ProxyArgs) : String := sha1hex (a.sid ++ a.requester ++ a.target)

/-- xep_0065._handle_streamhost builds the Proxy for the Target role:
requester is the stanza sender (iq from), target is the local bound JID. -/
def handle_streamhost (boundjid iqFrom sid host : List Nat) (port : Nat) : ProxyArgs :=
  { sid := sid, requester := iqFrom, target := boundjid, host := host, port := port }

/-- xep_0065._handle_streamhost_used builds the Proxy for the Requester
role: requester is the local bound JID, target is the stanza sender. -/
def handle_streamhost_used (boundjid iqFrom sid host : List Nat) (port : Nat) : ProxyArgs :=
  { sid := sid, requester := boundjid, target := iqFrom, host := host, port := port }


/-! ### The frame reader Proxy.recv_size

The socket is modelled as the list of byte chunks successive recv calls
will deliver, plus how the stream behaves once they are exhausted:
`pending` means no further data ever arrives and a blocking recv never
returns (the invocation hangs there), `eof` means recv returns an empty
string on every further call (a closed connection), `ioerror` means the
next recv raises socket.error (an IOError).  A recv with argument n takes
at most n bytes from the front of the head chunk, leaving the rest of
that chunk for the next call — exactly the guarantee a TCP socket gives.
-/

/-- How the modelled byte stream behaves after its chunks run out. -/
inductive Ending where
  | pending
  | eof
  | ioerror
deriving DecidableEq

/-- A socket's inbound byte stream: the chunks recv will deliver, then the
ending behaviour. -/
structure SockStream where
  chunks : List (List Nat)
  ending : Ending
deriving DecidableEq

/-- Result of one socket recv call in the model. -/
inductive SockRead where
  | data (bytes : List Nat) (rest : SockStream)
  | wouldBlock
  | raised
deriving DecidableEq

/-- the_socket.recv(n): at most n bytes from the head chunk; on an
exhausted stream the behaviour is given by the ending. -/
def sockRecv (n : Nat) (s : SockStream) : SockRead :=
  match s.chunks with
  | [] =>
    match s.ending with
    | .pending => .wouldBlock
    | .eof => .data [] s
    | .ioerror => .raised
  | c :: cs =>
    .data (c.take n) ⟨if (c.drop n).isEmpty then cs else c.drop n :: cs, s.ending⟩

/-- The local variables of Proxy.recv_size that survive a loop iteration:
total_data (the list of payload chunks collected so far), size_data (the
bytes accumulated while the length field is still unparsed), size (the
declared length, initially sys.maxint), and recv_size (the chunk size
passed to recv; an Int because the code assigns the parsed, possibly
negative, size to it). -/
structure RState where
  total_data : List (List Nat)
  size_data : List Nat
  size : Int
  rsz : Int
deriving DecidableEq

/-- Sum of the lengths of a list of chunks. -/
def sumLen (l : List (List Nat)) : Nat := (l.map List.length).sum

/-- total_len = sum([len(i) for i in total_data]), recomputed by the loop
after every read. -/
def totalLen (st : RState) : Nat := sumLen st.total_data

/-- sys.maxint of a 64-bit CPython 2. -/
def maxintI : Int := 9223372036854775807

/-- State at the top of recv_size: total_len = 0, total_data = [],
size = sys.maxint, size_data = empty, recv_size = 8192. -/
def initState : RState := ⟨[], [], maxintI, 8192⟩

/-- The body of the recv_size loop after recv returned sock_data: while
total_data is empty the length field is unparsed — a read of more than 4
bytes parses the first 4 accumulated bytes with the signed format and
starts the payload with the remainder, any other read only accumulates
into size_data; once total_data is non-empty every read is appended to it
whole. -/
def stepRead (st : RState) (sock_data : List Nat) : RState :=
  if st.total_data = [] then
    if 4 < sock_data.length then
      let size_data := st.size_data ++ sock_data
      let size := unpackI32 (size_data.take 4)
      let rsz := if 524288 < size then 524288 else size
      ⟨[size_data.drop 4], size_data, size, rsz⟩
    else { st with size_data := st.size_data ++ sock_data }
  else { st with total_data := st.total_data ++ [sock_data] }

/-- Outcome of one invocation of recv_size: a returned frame together with
the unconsumed part of the stream, a recv that blocks forever, a
propagated IOError from recv, or the fuel bound being reached with the
loop still running. -/
inductive ROut where
  | done (frame : List Nat) (rest : SockStream)
  | blocked
  | ioerror
  | outOfFuel
deriving DecidableEq

/-- One iteration of the while loop: test total_len < size, then recv and
feed the result to the loop body, or exit returning the joined payload. -/
def loopStep (st : RState) (s : SockStream) : ROut ⊕ (RState × SockStream) :=
  if (totalLen st : Int) < st.size then
    match sockRecv st.rsz.toNat s with
    | .wouldBlock => .inl .blocked
    | .raised => .inl .ioerror
    | .data d s' => .inr (stepRead st d, s')
  else
    .inl (.done st.total_data.flatten s)

/-- The while loop of recv_size, run for at most fuel iterations. -/
def recvLoop : Nat → RState → SockStream → ROut
  | 0, _, _ => .outOfFuel
  | fuel + 1, st, s =>
    match loopStep st s with
    | .inl r => r
    | .inr (st', s') => recvLoop fuel st' s'

/-- One invocation of Proxy.recv_size on a stream.  The fuel is one more
than the total byte count plus the chunk count of the stream, which is
enough for every iteration that consumes data (each read either consumes
a byte or retires a chunk); only an eof stream, whose reads return no
bytes, can exhaust it. -/
def recv_size (s : SockStream) : ROut :=
  recvLoop (sumLen s.chunks + s.chunks.length + 1) initState s

/-! ### The thread body Proxy.run as an event trace -/

/-- Observable events of one Proxy thread: the SOCKS5 connect call
returning successfully, the connect call raising, the connected Event
being set, and a frame being handed to the on_recv callback by the listen
loop. -/
inductive RunEvent where
  | connectOk
  | connectFailed
  | connectedSet
  | frameDelivered (d : List Nat)
deriving DecidableEq

/-- Proxy.run: connect to the proxy, then self.connected.set(), then
listen() delivering frames to on_recv until the loop dies.  If connect
raises, the thread ends and no later statement runs. -/
def proxyRun (connectOk : Bool) (frames : List (List Nat)) : List RunEvent :=
  if connectOk then
    .connectOk :: .connectedSet :: frames.map RunEvent.frameDelivered
  else
    [.connectFailed]

/-! ### Plugin-level send and discovery -/

/-- Whether the xep_0065 plugin object currently has a requester_thread
or target_thread attribute (hasattr in xep_0065.send). -/
structure PluginSendState where
  hasRequesterThread : Bool
  hasTargetThread : Bool
deriving DecidableEq

/-- What a call to xep_0065.send does with the message. -/
inductive SendAction where
  | viaRequester (msg : List Nat)
  | viaTarget (msg : List Nat)
  | dropped
deriving DecidableEq

/-- xep_0065.send: forward to requester_thread if present, else to
target_thread if present; with neither attribute the if/elif falls
through and the function returns with the message discarded. -/
def xep0065_send (st : PluginSendState) (msg : List Nat) : SendAction :=
  if st.hasRequesterThread then .viaRequester msg
  else if st.hasTargetThread then .viaTarget msg
  else .dropped

/-- One disco info result: the responding JID and its advertised
(category, type) identities. -/
structure DiscoInfo where
  fromJid : List Nat
  identities : List (List Nat × List Nat)
deriving DecidableEq

/-- xep_0065.discover_proxy: walk the disco items in order and return the
first whose info contains an identity with category proxy and type
bytestreams; falling off the loop returns None. -/
def discover_proxy : List DiscoInfo → Option (List Nat)
  | [] => none
  | info :: rest =>
    if info.identities.any
        (fun idn => idn.1 == asciiBytes "proxy" && idn.2 == asciiBytes "bytestreams") then
      some info.fromJid
    else
      discover_proxy rest

/-- Signalling steps the start of xep_0065.handshake performs, with the
streamer value they are performed against. -/
inductive HsEvent where
  | getNetworkAddress (streamer : Option (List Nat))
  | sendProposal (streamer : Option (List Nat))
deriving DecidableEq

/-- xep_0065.handshake: streamer = streamer or self.discover_proxy()
(None falls back to discovery), then unconditionally request the network
address from that streamer and send the proposal naming it — there is no
branch for the discovery coming back empty. -/
def handshake (streamer : Option (List Nat)) (infos : List DiscoInfo) : List HsEvent :=
  let s := match streamer with
    | some j => some j
    | none => discover_proxy infos
  [.getNetworkAddress s, .sendProposal s]


/-! ### Helper lemmas about the reader -/

theorem sumLen_nil : sumLen [] = 0 := rfl

theorem sumLen_cons (c : List Nat) (l : List (List Nat)) :
    sumLen (c :: l) = c.length + sumLen l := by
  simp [sumLen]

theorem sumLen_append (a b : List (List Nat)) : sumLen (a ++ b) = sumLen a + sumLen b := by
  simp [sumLen]

theorem sumLen_flatten (l : List (List Nat)) : l.flatten.length = sumLen l := by
  simp [sumLen]

theorem be32_lenBE4 (n : Nat) (h : n < 4294967296) : be32 (lenBE4 n) = n := by
  simp only [be32, lenBE4, List.take, List.foldl]
  omega

theorem unpackI32_lenBE4 (n : Nat) (h : n < 2147483648) : unpackI32 (lenBE4 n) = (n : Int) := by
  have hb : be32 (lenBE4 n) = n := be32_lenBE4 n (by omega)
  simp [unpackI32, hb, h]

theorem loopStep_exit (st : RState) (s : SockStream) (h : ¬ (totalLen st : Int) < st.size) :
    loopStep st s = .inl (.done st.total_data.flatten s) := by
  simp [loopStep, h]

theorem loopStep_read (st : RState) (c : List Nat) (cs : List (List Nat)) (e : Ending)
    (h : (totalLen st : Int) < st.size) :
    loopStep st ⟨c :: cs, e⟩ =
      .inr (stepRead st (c.take st.rsz.toNat),
        ⟨if (c.drop st.rsz.toNat).isEmpty then cs else c.drop st.rsz.toNat :: cs, e⟩) := by
  simp [loopStep, sockRecv, h]

theorem recvLoop_step (n : Nat) (st : RState) (s : SockStream) (st' : RState) (s' : SockStream)
    (h : loopStep st s = .inr (st', s')) :
    recvLoop (n + 1) st s = recvLoop n st' s' := by
  simp [recvLoop, h]

theorem recvLoop_stop (n : Nat) (st : RState) (s : SockStream) (r : ROut)
    (h : loopStep st s = .inl r) :
    recvLoop (n + 1) st s = r := by
  simp [recvLoop, h]

theorem stepRead_append (st : RState) (d : List Nat) (h : st.total_data ≠ []) :
    stepRead st d = { st with total_data := st.total_data ++ [d] } := by
  simp [stepRead, h]

theorem stepRead_accum (st : RState) (d : List Nat) (h0 : st.total_data = [])
    (h : d.length ≤ 4) :
    stepRead st d = { st with size_data := st.size_data ++ d } := by
  simp [stepRead, h0, Nat.not_lt.mpr h]

theorem stepRead_parse (st : RState) (d : List Nat) (h0 : st.total_data = [])
    (h : 4 < d.length) :
    stepRead st d =
      ⟨[(st.size_data ++ d).drop 4], st.size_data ++ d, unpackI32 ((st.size_data ++ d).take 4),
        if 524288 < unpackI32 ((st.size_data ++ d).take 4) then 524288
        else unpackI32 ((st.size_data ++ d).take 4)⟩ := by
  simp [stepRead, h0, h]

theorem take4_of_code (sd d rest p : List Nat) (h : (sd ++ d) ++ rest = frameEncode p)
    (hlen : 4 ≤ (sd ++ d).length) : (sd ++ d).take 4 = lenBE4 p.length := by
  have h1 : ((sd ++ d) ++ rest).take 4 = (sd ++ d).take 4 :=
    List.take_append_of_le_length hlen
  rw [h] at h1
  rw [← h1]
  show (lenBE4 p.length ++ p).take 4 = lenBE4 p.length
  rw [List.take_append_of_le_length (by simp [lenBE4])]
  exact List.take_of_length_le (by simp [lenBE4])

theorem drop4_of_code (sd d rest p : List Nat) (h : (sd ++ d) ++ rest = frameEncode p)
    (hlen : 4 ≤ (sd ++ d).length) : (sd ++ d).drop 4 ++ rest = p := by
  have h1 : ((sd ++ d) ++ rest).drop 4 = (sd ++ d).drop 4 ++ rest :=
    List.drop_append_of_le_length hlen
  rw [h] at h1
  rw [← h1]
  show (lenBE4 p.length ++ p).drop 4 = p
  rw [show (4 : Nat) = (lenBE4 p.length).length from by simp [lenBE4]]
  exact List.drop_left _ _

theorem frameLen_of_code (sd d rest p : List Nat) (h : (sd ++ d) ++ rest = frameEncode p) :
    sd.length + d.length + rest.length = 4 + p.length := by
  have h1 := congrArg List.length h
  simp [frameEncode, lenBE4] at h1
  omega

/-- Once the length field is parsed and the remaining chunks carry exactly
the bytes still missing from the frame, the loop appends them all and
returns with just the chunks after them unread. -/
theorem recvLoop_fill :
    ∀ (fuel : Nat) (cs Q : List (List Nat)) (st : RState) (e : Ending),
      st.total_data ≠ [] →
      1 ≤ st.rsz.toNat →
      st.size = ((totalLen st + sumLen cs : Nat) : Int) →
      (∀ c ∈ cs, c ≠ []) →
      sumLen cs + cs.length < fuel →
      recvLoop fuel st ⟨cs ++ Q, e⟩ = .done (st.total_data.flatten ++ cs.flatten) ⟨Q, e⟩ := by
  intro fuel
  induction fuel with
  | zero => intro cs Q st e _ _ _ _ hf; exact absurd hf (by omega)
  | succ n ih =>
    intro cs Q st e htd hr hsz hne hf
    match cs with
    | [] =>
      have hstop : ¬ (totalLen st : Int) < st.size := by
        rw [hsz, sumLen_nil]; omega
      rw [recvLoop_stop n st _ _ (loopStep_exit st _ hstop)]
      simp
    | c :: cs' =>
      have hcne : c ≠ [] := hne c (by simp)
      have hclen : 0 < c.length := List.length_pos.mpr hcne
      have hslen : 0 < sumLen (c :: cs') := by rw [sumLen_cons]; omega
      have hcond : (totalLen st : Int) < st.size := by rw [hsz]; omega
      have hread := loopStep_read st c (cs' ++ Q) e hcond
      rw [List.cons_append, recvLoop_step n st _ _ _ hread, stepRead_append st _ htd]
      by_cases hsplit : c.length ≤ st.rsz.toNat
      · have hdrop : c.drop st.rsz.toNat = [] := List.drop_eq_nil_of_le hsplit
        have htake : c.take st.rsz.toNat = c := List.take_of_length_le hsplit
        rw [htake, hdrop]
        simp only [List.isEmpty_nil, if_true]
        rw [ih cs' Q { st with total_data := st.total_data ++ [c] } e (by simp) hr ?_
          (fun x hx => hne x (by simp [hx])) ?_]
        · simp [List.flatten_append]
        · show st.size = _
          rw [hsz]
          congr 1
          simp [totalLen, sumLen_append, sumLen_cons, sumLen_nil]
          omega
        · rw [sumLen_cons] at hf
          simp only [List.length_cons] at hf
          omega
      · push_neg at hsplit
        have hdne : c.drop st.rsz.toNat ≠ [] := by
          intro hb
          have := congrArg List.length hb
          simp at this
          omega
        have hdropne : (c.drop st.rsz.toNat).isEmpty = false := by simp [hdne]
        rw [hdropne]
        simp only [Bool.false_eq_true, if_false]
        rw [show c.drop st.rsz.toNat :: (cs' ++ Q) = (c.drop st.rsz.toNat :: cs') ++ Q from rfl]
        rw [ih (c.drop st.rsz.toNat :: cs') Q
          { st with total_data := st.total_data ++ [c.take st.rsz.toNat] } e (by simp) hr ?_ ?_ ?_]
        · simp only [List.flatten_append, List.flatten_cons, List.flatten_nil,
            List.append_nil, List.append_assoc]
          rw [← List.append_assoc (c.take st.rsz.toNat), List.take_append_drop]
        · show st.size = _
          rw [hsz]
          congr 1
          simp [totalLen, sumLen_append, sumLen_cons, sumLen_nil, List.length_take,
            List.length_drop]
          omega
        · intro x hx
          rcases List.mem_cons.mp hx with h | h
          · subst h
            intro hb
            have := congrArg List.length hb
            simp at this
            omega
          · exact hne x (by simp [h])
        · rw [sumLen_cons] at hf ⊢
          simp only [List.length_cons] at hf ⊢
          simp only [List.length_drop]
          omega

/-- An empty read (what recv returns at end-of-file) changes neither the
accumulated payload length nor the parsed size, so the loop guard keeps
holding. -/
theorem stepRead_empty (st : RState) :
    totalLen (stepRead st []) = totalLen st ∧ (stepRead st []).size = st.size := by
  by_cases h : st.total_data = []
  · rw [stepRead_accum st [] h (by simp)]
    exact ⟨rfl, rfl⟩
  · rw [stepRead_append st [] h]
    refine ⟨?_, rfl⟩
    simp [totalLen, sumLen_append, sumLen_cons, sumLen_nil]

/-- On a closed socket (recv returns the empty string on every call) a
recv_size invocation whose loop guard holds never finishes: whatever the
iteration bound, it is still looping. -/
theorem recvLoop_eof_stuck :
    ∀ (fuel : Nat) (st : RState), (totalLen st : Int) < st.size →
      recvLoop fuel st ⟨[], .eof⟩ = .outOfFuel := by
  intro fuel
  induction fuel with
  | zero => intro st _; rfl
  | succ n ih =>
    intro st h
    have hread : loopStep st ⟨[], .eof⟩ = .inr (stepRead st [], ⟨[], .eof⟩) := by
      simp [loopStep, sockRecv, h]
    rw [recvLoop_step n st _ _ _ hread]
    apply ih
    rcases stepRead_empty st with ⟨h1, h2⟩
    rw [h1, h2]
    exact h

/-- stepRead at a pre-parse state written out, for syntactic rewriting. -/
theorem stepRead_parse0 (sd d : List Nat) (h : 4 < d.length) :
    stepRead ⟨[], sd, maxintI, 8192⟩ d =
      ⟨[(sd ++ d).drop 4], sd ++ d, unpackI32 ((sd ++ d).take 4),
        if 524288 < unpackI32 ((sd ++ d).take 4) then 524288
        else unpackI32 ((sd ++ d).take 4)⟩ :=
  stepRead_parse _ _ rfl h

/-- stepRead at a pre-parse state for a small read, written out. -/
theorem stepRead_accum0 (sd d : List Nat) (h : d.length ≤ 4) :
    stepRead ⟨[], sd, maxintI, 8192⟩ d = ⟨[], sd ++ d, maxintI, 8192⟩ :=
  stepRead_accum _ _ rfl h

/-- Main run of the reader: starting before the length field is parsed
with bytes sd already accumulated, if the chunks of P (followed by
anything) deliver the rest of exactly one encoded frame and some chunk of
P carries more than 4 bytes, the invocation returns the payload and
leaves the chunks after P unread. -/
theorem recvLoop_parse :
    ∀ (fuel : Nat) (P Q : List (List Nat)) (sd p : List Nat) (e : Ending),
      1 ≤ p.length → p.length < 2147483648 →
      sd ++ P.flatten = frameEncode p →
      (∀ c ∈ P, c ≠ []) →
      (∃ c ∈ P, 4 < c.length) →
      sumLen P + P.length < fuel →
      recvLoop fuel ⟨[], sd, maxintI, 8192⟩ ⟨P ++ Q, e⟩ = .done p ⟨Q, e⟩ := by
  intro fuel
  induction fuel with
  | zero => intro P Q sd p e _ _ _ _ _ hf; exact absurd hf (by omega)
  | succ n ih =>
    intro P Q sd p e hp1 hp2 henc hne hbig hf
    match P with
    | [] =>
      rcases hbig with ⟨c, hc, _⟩
      exact absurd hc (by simp)
    | c :: P' =>
      have hcne : c ≠ [] := hne c (by simp)
      have hclen : 0 < c.length := List.length_pos.mpr hcne
      have hcond : (totalLen ⟨[], sd, maxintI, 8192⟩ : Int) <
          (⟨[], sd, maxintI, 8192⟩ : RState).size := by
        show ((0 : Nat) : Int) < maxintI
        decide
      have hread := loopStep_read ⟨[], sd, maxintI, 8192⟩ c (P' ++ Q) e hcond
      rw [List.cons_append, recvLoop_step n _ _ _ _ hread]
      simp only [show ((⟨[], sd, maxintI, 8192⟩ : RState).rsz.toNat) = 8192 from rfl]
      rw [sumLen_cons] at hf
      simp only [List.length_cons] at hf
      rw [List.flatten_cons] at henc
      by_cases hc4 : c.length ≤ 4
      · have htake : c.take 8192 = c := List.take_of_length_le (by omega)
        have hdrop : c.drop 8192 = [] := List.drop_eq_nil_of_le (by omega)
        rw [htake, hdrop]
        simp only [List.isEmpty_nil, if_true]
        rw [stepRead_accum0 sd c hc4]
        have hbig' : ∃ c₀ ∈ P', 4 < c₀.length := by
          rcases hbig with ⟨c₀, hc₀, hb₀⟩
          rcases List.mem_cons.mp hc₀ with h | h
          · subst h; omega
          · exact ⟨c₀, h, hb₀⟩
        exact ih P' Q (sd ++ c) p e hp1 hp2
          (by rw [List.append_assoc]; exact henc)
          (fun x hx => hne x (by simp [hx])) hbig' (by omega)
      · push_neg at hc4
        have hdlen4 : 4 < (c.take 8192).length := by
          rw [List.length_take]
          omega
        rw [stepRead_parse0 sd (c.take 8192) hdlen4]
        have hEq : (sd ++ c.take 8192) ++ (c.drop 8192 ++ P'.flatten) = frameEncode p := by
          rw [List.append_assoc, ← List.append_assoc (c.take 8192), List.take_append_drop]
          exact henc
        have hsdlen : 4 ≤ (sd ++ c.take 8192).length := by
          rw [List.length_append, List.length_take]
          omega
        have htake4 : (sd ++ c.take 8192).take 4 = lenBE4 p.length :=
          take4_of_code sd (c.take 8192) (c.drop 8192 ++ P'.flatten) p hEq hsdlen
        have hdrop4 : (sd ++ c.take 8192).drop 4 ++ (c.drop 8192 ++ P'.flatten) = p :=
          drop4_of_code sd (c.take 8192) (c.drop 8192 ++ P'.flatten) p hEq hsdlen
        have hflen := frameLen_of_code sd (c.take 8192) (c.drop 8192 ++ P'.flatten) p hEq
        simp only [List.length_append, List.length_take, List.length_drop] at hflen
        rw [htake4, unpackI32_lenBE4 p.length hp2]
        have hrsz : (1 : Nat) ≤ (if 524288 < (p.length : Int) then (524288 : Int)
            else (p.length : Int)).toNat := by
          split
          · decide
          · rw [Int.toNat_ofNat]
            omega
        by_cases hc8 : c.length ≤ 8192
        · have hdr : c.drop 8192 = [] := List.drop_eq_nil_of_le hc8
          rw [hdr]
          simp only [List.isEmpty_nil, if_true]
          rw [recvLoop_fill n P' Q
            ⟨[(sd ++ c.take 8192).drop 4], sd ++ c.take 8192, (p.length : Int),
              if 524288 < (p.length : Int) then 524288 else (p.length : Int)⟩ e
            (by simp) hrsz ?_ (fun x hx => hne x (by simp [hx])) ?_]
          · have hpay : ([(sd ++ c.take 8192).drop 4] : List (List Nat)).flatten ++ P'.flatten
                = p := by
              rw [hdr] at hdrop4
              simp only [List.nil_append] at hdrop4
              simp only [List.flatten_cons, List.flatten_nil, List.append_nil]
              exact hdrop4
            rw [hpay]
          · show (p.length : Int) = _
            have htl : totalLen ⟨[(sd ++ c.take 8192).drop 4], sd ++ c.take 8192,
                (p.length : Int),
                if 524288 < (p.length : Int) then 524288 else (p.length : Int)⟩
                = (sd ++ c.take 8192).length - 4 := by
              simp [totalLen, sumLen_cons, sumLen_nil]
            rw [htl, List.length_append, List.length_take]
            have hP'len : P'.flatten.length = sumLen P' := sumLen_flatten P'
            omega
          · omega
        · push_neg at hc8
          have hdne : c.drop 8192 ≠ [] := by
            intro hb
            have := congrArg List.length hb
            simp at this
            omega
          have hie : (c.drop 8192).isEmpty = false := by simp [hdne]
          rw [hie]
          simp only [Bool.false_eq_true, if_false]
          rw [show c.drop 8192 :: (P' ++ Q) = (c.drop 8192 :: P') ++ Q from rfl]
          rw [recvLoop_fill n (c.drop 8192 :: P') Q
            ⟨[(sd ++ c.take 8192).drop 4], sd ++ c.take 8192, (p.length : Int),
              if 524288 < (p.length : Int) then 524288 else (p.length : Int)⟩ e
            (by simp) hrsz ?_ ?_ ?_]
          · have hpay : ([(sd ++ c.take 8192).drop 4] : List (List Nat)).flatten
                ++ (c.drop 8192 :: P').flatten = p := by
              simp only [List.flatten_cons, List.flatten_nil, List.append_nil]
              exact hdrop4
            rw [hpay]
          · show (p.length : Int) = _
            have htl : totalLen ⟨[(sd ++ c.take 8192).drop 4], sd ++ c.take 8192,
                (p.length : Int),
                if 524288 < (p.length : Int) then 524288 else (p.length : Int)⟩
                = (sd ++ c.take 8192).length - 4 := by
              simp [totalLen, sumLen_cons, sumLen_nil]
            rw [htl, List.length_append, List.length_take, sumLen_cons, List.length_drop]
            have hP'len : P'.flatten.length = sumLen P' := sumLen_flatten P'
            omega
          · intro x hx
            rcases List.mem_cons.mp hx with h | h
            · subst h; exact hdne
            · exact hne x (by simp [h])
          · rw [sumLen_cons]
            simp only [List.length_cons, List.length_drop]
            omega

/-! ### Claim theorems -/

/-- C1: for SessionID abc123, RequesterAddress alice@example.com/r1 and
TargetAddress bob@example.com/r2, the hostname Proxy.run hands to the
relay connect call is the hex SHA-1 of the three strings concatenated
with no separators in Session-Requester-Target order — the fixed
40-character string 771b1bd798654a7255f2b208869d601552fbbf87. -/
theorem circuit_key_scenario_b :
    proxyRunDest ⟨asciiBytes "abc123", asciiBytes "alice@example.com/r1",
        asciiBytes "bob@example.com/r2", [], 0⟩
      = sha1hex (asciiBytes ("abc123" ++ "alice@example.com/r1" ++ "bob@example.com/r2"))
    ∧ proxyRunDest ⟨asciiBytes "abc123", asciiBytes "alice@example.com/r1",
        asciiBytes "bob@example.com/r2", [], 0⟩
      = "771b1bd798654a7255f2b208869d601552fbbf87"
    ∧ (proxyRunDest ⟨asciiBytes "abc123", asciiBytes "alice@example.com/r1",
        asciiBytes "bob@example.com/r2", [], 0⟩).length = 40 := by
  refine ⟨by decide, by decide, by decide⟩

/-- C2: the circuit key computed on the Target path (requester taken from
the inbound proposal sender, target the local address) is byte-identical
to the one computed on the Requester path (requester the local address,
target the confirmation sender) whenever the corresponding address
arguments agree: both paths feed sid, requester, target to SHA-1 in the
same order. -/
theorem circuit_key_role_symmetry (sid reqJid tgtJid h₁ h₂ : List Nat) (p₁ p₂ : Nat) :
    proxyRunDest (handle_streamhost tgtJid reqJid sid h₁ p₁)
      = proxyRunDest (handle_streamhost_used reqJid tgtJid sid h₂ p₂) := rfl

/-- C3 (amended): the round trip holds for payloads of length 1 to
1000000 provided some delivered chunk carries more than 4 bytes: then one
recv_size invocation terminates and returns exactly the payload.  (As
stated the claim is false: with a zero-length payload, or with every
chunk at most 4 bytes long, the length field is never parsed and the
invocation never returns — see the counterexample.) -/
theorem recv_size_roundtrip (p : List Nat) (P : List (List Nat)) (e : Ending)
    (hlen : 1 ≤ p.length) (hmax : p.length ≤ 1000000)
    (hjoin : P.flatten = frameEncode p)
    (hne : ∀ c ∈ P, c ≠ []) (hbig : ∃ c ∈ P, 4 < c.length) :
    recv_size ⟨P, e⟩ = .done p ⟨[], e⟩ := by
  have h := recvLoop_parse (sumLen P + P.length + 1) P [] [] p e hlen (by omega)
    (by simpa using hjoin) hne hbig (by omega)
  rw [List.append_nil] at h
  exact h

/-- C3 witness: a concrete instance of the amended round trip. -/
theorem recv_size_roundtrip_witness :
    recv_size ⟨[[0, 0, 0, 1, 7]], .pending⟩ = .done [7] ⟨[], .pending⟩ :=
  recv_size_roundtrip [7] [[0, 0, 0, 1, 7]] .pending (by decide) (by decide) (by decide)
    (by decide) (by decide)

/-- C3 counterexample: the zero-length payload, a case of the claim as
stated (N = 0, the whole 4-byte encoding in one chunk), never returns:
the invocation is still waiting in recv. -/
theorem recv_size_empty_payload_blocks :
    recv_size ⟨[[0, 0, 0, 0]], .pending⟩ = .blocked := by decide

/-- C4 (amended): while total_data is empty, a read of at most 4 bytes
only accumulates into size_data — even when 5 or more bytes have been
collected in total — and the length field is parsed at the first read
that alone delivers more than 4 bytes, taking the first 4 accumulated
bytes as the length and the rest as the first payload fragment.  (The
claim as stated — parsing as soon as the reads total at least 5 bytes —
is false: see the 3-then-3-byte counterexample.) -/
theorem stepRead_parse_trigger (st : RState) (d : List Nat) (h0 : st.total_data = []) :
    (d.length ≤ 4 → stepRead st d = { st with size_data := st.size_data ++ d })
    ∧ (4 < d.length →
        stepRead st d =
          ⟨[(st.size_data ++ d).drop 4], st.size_data ++ d,
            unpackI32 ((st.size_data ++ d).take 4),
            if 524288 < unpackI32 ((st.size_data ++ d).take 4) then 524288
            else unpackI32 ((st.size_data ++ d).take 4)⟩) :=
  ⟨fun h => stepRead_accum st d h0 h, fun h => stepRead_parse st d h0 h⟩

/-- C4 witness: a 3-byte read after 3 accumulated bytes (6 bytes in
total) still only accumulates; a 5-byte read parses, consuming the
accumulated bytes first. -/
theorem stepRead_parse_trigger_witness :
    stepRead ⟨[], [0, 0, 0], maxintI, 8192⟩ [2, 7, 8] = ⟨[], [0, 0, 0, 2, 7, 8], maxintI, 8192⟩
    ∧ stepRead ⟨[], [0, 0, 0], maxintI, 8192⟩ [2, 7, 8, 9, 10]
      = ⟨[[7, 8, 9, 10]], [0, 0, 0, 2, 7, 8, 9, 10], 2, 2⟩ := by
  constructor
  · exact (stepRead_parse_trigger ⟨[], [0, 0, 0], maxintI, 8192⟩ [2, 7, 8] rfl).1 (by decide)
  · have h := (stepRead_parse_trigger ⟨[], [0, 0, 0], maxintI, 8192⟩ [2, 7, 8, 9, 10] rfl).2
      (by decide)
    rw [h]
    decide

/-- C4 counterexample: the claim's own example, a length field delivered
as 3 bytes then 3 bytes (6 bytes collected, declaring a 2-byte payload),
is never parsed: the reader is still waiting for more data instead of
returning the payload. -/
theorem recv_size_three_then_three :
    recv_size ⟨[[0, 0, 0], [2, 7, 8]], .pending⟩ = .blocked := by decide

/-- C5: the code unpacks the 4-byte length field with the signed
big-endian format, not the unsigned one the claim states: a prefix with
the top bit set yields a negative declared length (here -2^31 instead of
2^31), upon which the loop guard fails at once and whatever bytes arrived
with the prefix are returned as the frame. -/
theorem recv_size_signed_length :
    unpackI32 [128, 0, 0, 0] = -2147483648
    ∧ recv_size ⟨[[128, 0, 0, 0, 1, 2, 3]], .pending⟩ = .done [1, 2, 3] ⟨[], .pending⟩ :=
  ⟨by decide, by decide⟩

/-- C6 (amended): the returned frame is exactly the N declared bytes and
no byte of a later frame is consumed, provided no single read spans the
first frame's boundary (the delivered chunks partition the first frame's
encoding exactly, later chunks carrying the later frames); a read that
does span the boundary is consumed and returned whole — see the
counterexample. -/
theorem recv_size_within_first_frame (p : List Nat) (P Q : List (List Nat)) (e : Ending)
    (hlen : 1 ≤ p.length) (hmax : p.length ≤ 1000000)
    (hjoin : P.flatten = frameEncode p)
    (hne : ∀ c ∈ P, c ≠ []) (hbig : ∃ c ∈ P, 4 < c.length) :
    recv_size ⟨P ++ Q, e⟩ = .done p ⟨Q, e⟩ := by
  have h := recvLoop_parse (sumLen (P ++ Q) + (P ++ Q).length + 1) P Q [] p e hlen (by omega)
    (by simpa using hjoin) hne hbig ?_
  · exact h
  · rw [sumLen_append]
    simp only [List.length_append]
    omega

/-- C6 witness: a one-byte frame followed by an unrelated chunk; the
frame is returned and the later chunk stays unread. -/
theorem recv_size_within_first_frame_witness :
    recv_size ⟨[[0, 0, 0, 1, 7], [9, 9]], .pending⟩ = .done [7] ⟨[[9, 9]], .pending⟩ :=
  recv_size_within_first_frame [7] [[0, 0, 0, 1, 7]] [[9, 9]] .pending (by decide) (by decide)
    (by decide) (by decide) (by decide)

/-- C6 counterexample: two one-byte frames batched into a single read:
the first invocation consumes everything and returns 6 bytes for a frame
whose declared length is 1, swallowing the entire second frame. -/
theorem recv_size_over_read :
    recv_size ⟨[frameEncode [170] ++ frameEncode [187]], .pending⟩
      = .done ([170] ++ frameEncode [187]) ⟨[], .pending⟩ := by decide

/-- C7: in the Proxy.run trace the connected signal is set exactly once,
strictly after the relay connect call has returned successfully and
strictly before any frame is delivered to the callback; when connect
fails the signal is never set. -/
theorem proxyRun_connected_ordering (frames : List (List Nat)) :
    (proxyRun true frames)[0]? = some .connectOk
    ∧ (proxyRun true frames)[1]? = some .connectedSet
    ∧ (∀ j, (proxyRun true frames)[j]? = some .connectedSet → j = 1)
    ∧ (∀ j d, (proxyRun true frames)[j]? = some (.frameDelivered d) → 2 ≤ j)
    ∧ RunEvent.connectedSet ∉ proxyRun false frames := by
  refine ⟨by simp [proxyRun], by simp [proxyRun], ?_, ?_, by simp [proxyRun]⟩
  · intro j hj
    match j with
    | 0 => simp [proxyRun] at hj
    | 1 => rfl
    | j + 2 =>
      simp only [proxyRun, if_true] at hj
      rw [List.getElem?_cons_succ, List.getElem?_cons_succ, List.getElem?_map] at hj
      rcases hmap : frames[j]? with _ | d
      · rw [hmap] at hj; simp at hj
      · rw [hmap] at hj; simp at hj
  · intro j d hj
    match j with
    | 0 => simp [proxyRun] at hj
    | 1 => simp [proxyRun] at hj
    | j + 2 => omega

/-- C7 witness: the ordering facts at a concrete one-frame trace. -/
theorem proxyRun_connected_ordering_witness :
    (2 : Nat) ≤ 2 ∧ RunEvent.connectedSet ∉ proxyRun false [[5]] :=
  ⟨(proxyRun_connected_ordering [[5]]).2.2.2.1 2 [5] (by decide),
   (proxyRun_connected_ordering [[5]]).2.2.2.2⟩

/-- C8: on end-of-file before a complete frame the invocation does not
fail with an IOError as the claim states — recv returns the empty string,
which leaves total_len, size_data and size unchanged, so the loop runs
forever: after any number of iterations it is still looping, having
neither raised nor returned.  (A socket error, by contrast, propagates
out of the loop, the .ioerror outcome.) -/
theorem recv_size_eof_spins :
    ∀ fuel : Nat, recvLoop fuel initState ⟨[[0, 0, 0, 1]], .eof⟩ = .outOfFuel := by
  intro fuel
  match fuel with
  | 0 => rfl
  | n + 1 =>
    have hread : loopStep initState ⟨[[0, 0, 0, 1]], .eof⟩
        = .inr (⟨[], [0, 0, 0, 1], maxintI, 8192⟩, ⟨[], .eof⟩) := by decide
    rw [recvLoop_step n _ _ _ _ hread]
    exact recvLoop_eof_stuck n _ (by decide)

/-- C9 (amended): xep_0065.send forwards to the requester thread when it
exists, else to the target thread when it exists; when neither session
thread exists the call returns normally having silently discarded the
message.  (The claim — reject or queue, never silently drop — is false in
the no-thread case: see the counterexample.) -/
theorem xep0065_send_routing (st : PluginSendState) (msg : List Nat) :
    (st.hasRequesterThread = true → xep0065_send st msg = .viaRequester msg)
    ∧ (st.hasRequesterThread = false → st.hasTargetThread = true →
        xep0065_send st msg = .viaTarget msg)
    ∧ (st.hasRequesterThread = false → st.hasTargetThread = false →
        xep0065_send st msg = .dropped) := by
  refine ⟨fun h => ?_, fun h1 h2 => ?_, fun h1 h2 => ?_⟩ <;> simp [xep0065_send, *]

/-- C9 witness: routing at concrete plugin states. -/
theorem xep0065_send_routing_witness :
    xep0065_send ⟨true, false⟩ [7] = .viaRequester [7]
    ∧ xep0065_send ⟨false, false⟩ [7] = .dropped :=
  ⟨(xep0065_send_routing ⟨true, false⟩ [7]).1 rfl,
   (xep0065_send_routing ⟨false, false⟩ [7]).2.2 rfl rfl⟩

/-- C9 counterexample: a send before any session thread exists returns
normally with the message silently discarded — neither an error nor a
queue. -/
theorem xep0065_send_silent_drop :
    xep0065_send ⟨false, false⟩ [1, 2, 3] = .dropped := rfl

/-- C10: when discovery finds no candidate with a proxy/bytestreams
identity, discover_proxy returns None and handshake does not abort: it
proceeds to request the network address from streamer None and to send
the proposal — no discovery failure is surfaced. -/
theorem handshake_proceeds_without_proxy :
    discover_proxy [⟨asciiBytes "x.example.com", [(asciiBytes "server", asciiBytes "im")]⟩]
      = none
    ∧ handshake none [⟨asciiBytes "x.example.com", [(asciiBytes "server", asciiBytes "im")]⟩]
      = [.getNetworkAddress none, .sendProposal none] :=
  ⟨by decide, by decide⟩
